import Mathlib

/-!
Shallow embedding of the `react-hook-stepper` state-management core.

The definitions below are translated from the repository sources:
* `src/useStepNavigation.tsx` — the navigation engine (`updateStepsStatus`,
  `updateStepStates`, `calculateProgress`, `executeStepNavigation`, `onNext`,
  `onPrev`, `goToStep`);
* `src/useStepsActions.tsx` — the step actions (`setStepsInfo`, `updateSteps`,
  `updateGeneralState`, `cleanLocalStorage`);
* `src/useStepperSync.ts` — the localStorage adapter.

JavaScript numbers are modelled as `Nat`/`Int` for indices and counters and as
`ℚ` for the progress ratios (all progress arithmetic in the source is exact
division of small integers).  React state cells (`currentStep`, the stepper
state, the `loading` flag), the persisted blob and the console are gathered in
an explicit `World` record; every hook entry point becomes a function from a
`World` to a `World` (plus an `Option String` for an uncaught rejection).
-/

/-- Per-step flags (`StepState` in `src/types/StepTypes`).  After
initialization every field is a definite value, which is how the source reads
them (`item.isCompleted === true`, spreads, `??` fallbacks). -/
structure StepState where
  name : String
  canAccess : Bool
  canEdit : Bool
  isOptional : Bool
  isCompleted : Bool
deriving DecidableEq

/-- Aggregate metrics (`generalInfo` in the source). -/
structure GeneralInfo where
  totalSteps : Nat
  currentProgress : ℚ
  completedProgress : ℚ
  canAccessProgress : ℚ
deriving DecidableEq

/-- The aggregate root (`StepperState<T>` in the source). -/
structure StepperState (T : Type) where
  generalInfo : GeneralInfo
  steps : List StepState
  generalState : T
  isLoadedFromLocalStorage : Bool := false
deriving DecidableEq

/-- A value that can appear in a `Partial<StepState>` patch: the four flag
fields are booleans and `name` is a string. -/
inductive JsVal where
  | bool (b : Bool) : JsVal
  | str (s : String) : JsVal
deriving DecidableEq

/-- A `Partial<StepState>` patch, as a key/value list so that unknown keys can
be represented (they reach `updateSteps` validation and, unvalidated, the
navigation `updateStepsStatus` path). -/
abbrev StepPatch := List (String × JsVal)

/-- One entry of the JS object spread `{...step, ...data}`: a known key with a
value of the field's type overwrites the field, any other key becomes an
expando property that no code of the repository ever reads, so it is dropped. -/
def applyPatchField (st : StepState) (kv : String × JsVal) : StepState :=
  match kv with
  | ("name", JsVal.str s) => { st with name := s }
  | ("canAccess", JsVal.bool b) => { st with canAccess := b }
  | ("canEdit", JsVal.bool b) => { st with canEdit := b }
  | ("isOptional", JsVal.bool b) => { st with isOptional := b }
  | ("isCompleted", JsVal.bool b) => { st with isCompleted := b }
  | _ => st

/-- The spread `{...st, ...data}` with `data` a `Partial<StepState>`. -/
def applyPatch (st : StepState) (p : StepPatch) : StepState :=
  p.foldl applyPatchField st

/-- Model of `UpdateStepInput` from the source: `{ stepIndex: number, data: Partial<StepState> }`. -/
structure UpdateStepInput where
  stepIndex : Int
  data : StepPatch
deriving DecidableEq

/-- The merge base `{...steps[i], ...}` when `steps[i]` is `undefined` (hole or
out-of-range read): spreading `undefined` contributes no properties, so the
base behaves as a step whose every field is absent; no repository code
distinguishes such a field from `false`/`""`. -/
def holeStep : StepState := ⟨"", false, false, false, false⟩

/-- JS array read `steps[i]` (with `undefined` represented by `holeStep`). -/
def jsGetStep (l : List StepState) (i : Int) : StepState :=
  if 0 ≤ i then ((l.get? i.toNat).getD holeStep) else holeStep

/-- JS array write `l[i] = x`: in range it replaces the element, past the end
it extends the array to length `i+1` (the skipped positions become holes), and
a negative index only creates an invisible string-keyed property, leaving the
array unchanged. -/
def jsWriteStep (l : List StepState) (i : Int) (x : StepState) : List StepState :=
  if 0 ≤ i then
    if i.toNat < l.length then l.set i.toNat x
    else l ++ List.replicate (i.toNat - l.length) holeStep ++ [x]
  else l

/-- Per-direction field overrides (`next.currentStep` etc.), every field
optional. -/
structure StepOverrides where
  canAccess : Option Bool := none
  isCompleted : Option Bool := none
  isOptional : Option Bool := none
  canEdit : Option Bool := none
deriving DecidableEq

/-- The `next` part of the navigation configuration. -/
structure NextConfig where
  currentStep : Option StepOverrides := none
  nextStep : Option StepOverrides := none
deriving DecidableEq

/-- The `prev` part of the navigation configuration. -/
structure PrevConfig where
  currentStep : Option StepOverrides := none
  prevStep : Option StepOverrides := none
deriving DecidableEq

/-- Model of `validations.goToStep` configuration. -/
structure ValidationGoToStep where
  canAccess : Option Bool := none
deriving DecidableEq

/-- Model of `validations` configuration. -/
structure ValidationConfig where
  goToStep : Option ValidationGoToStep := none
deriving DecidableEq

/-- The stepper configuration as consumed by the navigation engine and the
actions (`steps`/`component` entries are irrelevant to the state transitions
and omitted). -/
structure StepperConfig where
  saveLocalStorage : Bool := false
  next : Option NextConfig := none
  prev : Option PrevConfig := none
  validations : Option ValidationConfig := none
deriving DecidableEq

/-- Model of `config.next?.currentStep`. -/
def cfgNextCurrent (cfg : StepperConfig) : Option StepOverrides :=
  cfg.next.bind NextConfig.currentStep

/-- Model of `config.next?.nextStep`. -/
def cfgNextNext (cfg : StepperConfig) : Option StepOverrides :=
  cfg.next.bind NextConfig.nextStep

/-- Model of `config.prev?.currentStep`. -/
def cfgPrevCurrent (cfg : StepperConfig) : Option StepOverrides :=
  cfg.prev.bind PrevConfig.currentStep

/-- Model of `config.prev?.prevStep`. -/
def cfgPrevPrev (cfg : StepperConfig) : Option StepOverrides :=
  cfg.prev.bind PrevConfig.prevStep

/-- Model of `n || 1` on a non-negative JS number: `0` is falsy. -/
def jsOr1 (n : Nat) : Nat := if n = 0 then 1 else n

/-- Model of `calculateProgress` from `useStepNavigation.tsx`: the fractions of steps
with `isCompleted === true` resp. `canAccess === true`, denominator
`totalSteps || 1`. -/
def calculateProgress (steps : List StepState) (totalSteps : Nat) : ℚ × ℚ :=
  (((steps.filter (fun item => item.isCompleted)).length : ℚ) / (jsOr1 totalSteps : ℚ),
   ((steps.filter (fun item => item.canAccess)).length : ℚ) / (jsOr1 totalSteps : ℚ))

/-- Model of `updateStepsStatus` from `useStepNavigation.tsx`: copies the step array and
for each update writes `{...currentState.steps[u.stepIndex], ...u.data}` at
`u.stepIndex` — the merge base is always read from the original array, the
index is not validated. -/
def updateStepsStatus {T : Type} (currentState : StepperState T)
    (updates : List UpdateStepInput) : List StepState :=
  updates.foldl
    (fun acc u => jsWriteStep acc u.stepIndex
      (applyPatch (jsGetStep currentState.steps u.stepIndex) u.data))
    currentState.steps

/-- The body of the `steps.map((step, index) => ...)` in `updateStepStates`:
the four branches for current/target step crossed with the direction, every
other step passing through unchanged. -/
def navTransformStep (cfg : StepperConfig) (currentStepIndex : Nat)
    (targetStepIndex : Option Nat) (isMovingForward : Bool)
    (index : Nat) (step : StepState) : StepState :=
  if index = currentStepIndex ∧ isMovingForward = true then
    { step with
      canAccess := ((cfgNextCurrent cfg).bind StepOverrides.canAccess).getD step.canAccess
      isCompleted := ((cfgNextCurrent cfg).bind StepOverrides.isCompleted).getD true
      isOptional := ((cfgNextCurrent cfg).bind StepOverrides.isOptional).getD step.isOptional
      canEdit := ((cfgNextCurrent cfg).bind StepOverrides.canEdit).getD step.canEdit }
  else if index = currentStepIndex ∧ isMovingForward = false then
    { step with
      canAccess := ((cfgPrevCurrent cfg).bind StepOverrides.canAccess).getD step.canAccess
      isCompleted := ((cfgPrevCurrent cfg).bind StepOverrides.isCompleted).getD step.isCompleted
      isOptional := ((cfgPrevCurrent cfg).bind StepOverrides.isOptional).getD step.isOptional
      canEdit := ((cfgPrevCurrent cfg).bind StepOverrides.canEdit).getD step.canEdit }
  else if targetStepIndex = some index ∧ isMovingForward = true then
    { step with
      canAccess := ((cfgNextNext cfg).bind StepOverrides.canAccess).getD true
      isCompleted := ((cfgNextNext cfg).bind StepOverrides.isCompleted).getD step.isCompleted
      isOptional := ((cfgNextNext cfg).bind StepOverrides.isOptional).getD step.isOptional
      canEdit := ((cfgNextNext cfg).bind StepOverrides.canEdit).getD step.canEdit }
  else if targetStepIndex = some index ∧ isMovingForward = false then
    { step with
      canAccess := ((cfgPrevPrev cfg).bind StepOverrides.canAccess).getD step.canAccess
      isCompleted := ((cfgPrevPrev cfg).bind StepOverrides.isCompleted).getD step.isCompleted
      isOptional := ((cfgPrevPrev cfg).bind StepOverrides.isOptional).getD step.isOptional
      canEdit := ((cfgPrevPrev cfg).bind StepOverrides.canEdit).getD step.canEdit }
  else step

/-- Model of `steps.map((step, index) => ...)` with the running index made explicit. -/
def mapWithIndex {α β : Type} (f : Nat → α → β) : Nat → List α → List β
  | _, [] => []
  | i, x :: xs => f i x :: mapWithIndex f (i + 1) xs

/-- Model of `updateStepStates` from `useStepNavigation.tsx`. -/
def updateStepStates (cfg : StepperConfig) (steps : List StepState)
    (currentStepIndex : Nat) (targetStepIndex : Option Nat)
    (isMovingForward : Bool) : List StepState :=
  mapWithIndex (navTransformStep cfg currentStepIndex targetStepIndex isMovingForward) 0 steps

/-- The optional argument bundle of the navigation entry points.  The
completion callback is modelled as a pure function of the state it receives
that either resolves (`Except.ok`) or rejects with an error (`Except.error`);
`updateGeneralStates.data` is modelled as the shallow merge
`{...generalState, ...data}` it induces, a function of the old payload. -/
structure NavArgs (T : Type) where
  onCompleteStep : Option (StepperState T → Except String Unit) := none
  updateStepsStatus : Option (List UpdateStepInput) := none
  updateGeneralStates : Option (T → T) := none

/-- Log levels of the console calls made by the source. -/
inductive LogLevel where
  | warn : LogLevel
  | error : LogLevel
deriving DecidableEq

/-- One console entry. -/
structure LogEntry where
  level : LogLevel
  msg : String
deriving DecidableEq

/-- The observable environment of the hooks: the React state cells
(`stepperState`, `currentStep`, `loading`), the persisted blob under the fixed
key `"stepperState"` (its parsed content), and the console log. -/
structure World (T : Type) where
  state : StepperState T
  current : Nat
  loading : Bool
  storage : Option (StepperState T)
  log : List LogEntry
deriving DecidableEq

/-- Outcome of `await onCompleteStep(s)` for a given argument bundle: `none`
when no callback was supplied or it resolved, `some e` when it rejected. -/
def cbOutcome {T : Type} (args : NavArgs T) (s : StepperState T) : Option String :=
  match args.onCompleteStep with
  | none => none
  | some cb =>
    match cb s with
    | Except.ok _ => none
    | Except.error e => some e

/-- The new state computed inside `executeStepNavigation` before the commit:
status updates, direction-dependent overrides, recomputed progress, shallow
merge into `generalState`. -/
def navNewState {T : Type} (cfg : StepperConfig) (st : StepperState T)
    (currentStep targetStep : Nat) (args : NavArgs T) : StepperState T :=
  let updatedSteps := updateStepsStatus st (args.updateStepsStatus.getD [])
  let isMovingForward := decide (targetStep > currentStep)
  let finalSteps := updateStepStates cfg updatedSteps currentStep (some targetStep) isMovingForward
  let progress := calculateProgress finalSteps st.generalInfo.totalSteps
  { st with
    steps := finalSteps
    generalInfo :=
      { st.generalInfo with
        currentProgress := ((targetStep : ℚ) + 1) / (jsOr1 st.generalInfo.totalSteps : ℚ)
        completedProgress := progress.1
        canAccessProgress := progress.2 }
    generalState :=
      match args.updateGeneralStates with
      | some f => f st.generalState
      | none => st.generalState }

/-- Model of `executeStepNavigation` from `useStepNavigation.tsx`: sets the busy flag,
computes the new state, persists it when `saveLocalStorage` is on, awaits the
callback, and only then commits `updateStepperState`/`setCurrentStep`; a
rejection is caught, logged via `console.error`, and skips the commit; the
`finally` block clears the busy flag on every path. -/
def executeStepNavigation {T : Type} (cfg : StepperConfig) (w : World T)
    (targetStep : Nat) (args : NavArgs T) : World T :=
  let newState := navNewState cfg w.state w.current targetStep args
  let storage' := if cfg.saveLocalStorage then some newState else w.storage
  match cbOutcome args newState with
  | none =>
    { w with state := newState, current := targetStep, storage := storage', loading := false }
  | some e =>
    { w with
      storage := storage'
      loading := false
      log := w.log ++ [⟨LogLevel.error, "Error in step navigation: " ++ e⟩] }

/-- Model of `onNext` from `useStepNavigation.tsx`.  The guard is
`currentStep >= totalSteps - 1` over JS numbers, i.e. `totalSteps ≤ current + 1`;
on the short-circuit path the persisted blob is removed when persistence is on,
the callback is awaited with the unchanged state (outside any try/catch, so a
rejection propagates as the second component), and the warning is only logged
after the callback resolves. -/
def worldOnNext {T : Type} (cfg : StepperConfig) (w : World T) (args : NavArgs T) :
    World T × Option String :=
  if w.state.generalInfo.totalSteps ≤ w.current + 1 then
    let w1 := if cfg.saveLocalStorage then { w with storage := none } else w
    match cbOutcome args w.state with
    | some e => (w1, some e)
    | none =>
      ({ w1 with log := w1.log ++ [⟨LogLevel.warn, "You are already on the last step."⟩] }, none)
  else
    (executeStepNavigation cfg w (w.current + 1) args, none)

/-- Model of `onPrev` from `useStepNavigation.tsx`. -/
def worldOnPrev {T : Type} (cfg : StepperConfig) (w : World T) (args : NavArgs T) :
    World T × Option String :=
  if w.current = 0 then
    ({ w with log := w.log ++ [⟨LogLevel.warn, "You are already on the first step."⟩] }, none)
  else
    (executeStepNavigation cfg w (w.current - 1) args, none)

/-- Model of `config?.validations?.goToStep?.canAccess ?? true`. -/
def goToStepValidationCanAccess (cfg : StepperConfig) : Bool :=
  ((cfg.validations.bind ValidationConfig.goToStep).bind ValidationGoToStep.canAccess).getD true

/-- Truthiness of `stepperState.steps[nextStep]?.canAccess`. -/
def jsStepCanAccess (steps : List StepState) (i : Int) : Bool :=
  if 0 ≤ i then ((steps.get? i.toNat).map StepState.canAccess).getD false else false

/-- The combined condition under which `goToStep` logs the inaccessibility
warning and returns: validation enabled, a forward jump, and a target whose
`canAccess` is not truthy. -/
def goToStepBlocked {T : Type} (cfg : StepperConfig) (w : World T) (nextStep : Int) : Bool :=
  goToStepValidationCanAccess cfg && decide ((w.current : Int) < nextStep)
    && ! jsStepCanAccess w.state.steps nextStep

/-- Model of `goToStep` from `useStepNavigation.tsx`: throws on an out-of-range index
(the rejection is the second component), no-ops when the target equals the
current index, optionally blocks an inaccessible forward jump with a warning,
and otherwise runs `executeStepNavigation`. -/
def worldGoToStep {T : Type} (cfg : StepperConfig) (w : World T) (nextStep : Int)
    (args : NavArgs T) : World T × Option String :=
  if nextStep < 0 ∨ (w.state.generalInfo.totalSteps : Int) ≤ nextStep then
    (w, some ("The step " ++ toString nextStep ++ " does not exist."))
  else if nextStep = (w.current : Int) then
    (w, none)
  else if goToStepBlocked cfg w nextStep then
    ({ w with log := w.log ++
        [⟨LogLevel.warn, "The step " ++ toString nextStep
            ++ " is not accessible because it is not available."⟩] }, none)
  else
    (executeStepNavigation cfg w nextStep.toNat args, none)

/-- One entry of the `steps` argument of `setStepsInfo` (`StepConfig` in the
source): a name plus optional flag presets (the `component` field never
influences the state transitions). -/
structure StepConfig where
  name : String
  canAccess : Option Bool := none
  canEdit : Option Bool := none
  isOptional : Option Bool := none
  isCompleted : Option Bool := none
deriving DecidableEq

/-- Model of `setStepsInfo` from `useStepsActions.tsx` (state part): replaces
`generalInfo` and `steps`.  `canAccessProgress` is set to `1/steps.length`
when the list is non-empty ("Only first step should be accessible"); flag
defaults are `canAccess := index === 0`, `canEdit := false`, and
`isOptional`/`isCompleted` are `|| false`, i.e. `false` unless explicitly
`true`. -/
def setStepsInfoState {T : Type} (prevState : StepperState T)
    (steps : List StepConfig) : StepperState T :=
  { prevState with
    generalInfo :=
      { totalSteps := steps.length
        currentProgress := 0
        completedProgress := 0
        canAccessProgress := if steps.length > 0 then 1 / (steps.length : ℚ) else 0 }
    steps := mapWithIndex
      (fun index step =>
        { name := step.name
          canAccess := step.canAccess.getD (decide (index = 0))
          canEdit := step.canEdit.getD false
          isOptional := step.isOptional.getD false
          isCompleted := step.isCompleted.getD false }) 0 steps }

/-- World-level `setStepsInfo`: only `updateStepperState` is called, nothing
is persisted and no index changes. -/
def worldSetStepsInfo {T : Type} (w : World T) (steps : List StepConfig) : World T :=
  { w with state := setStepsInfoState w.state steps }

/-- World-level `updateGeneralState`: shallow-merges the patch into
`generalState`, commits and persists (when `saveLocalStorage` is on). -/
def worldUpdateGeneralState {T : Type} (cfg : StepperConfig) (w : World T)
    (dataMerge : T → T) : World T :=
  let newState := { w.state with generalState := dataMerge w.state.generalState }
  { w with
    state := newState
    storage := if cfg.saveLocalStorage then some newState else w.storage }

/-- The `validKeys` list of `updateSteps`. -/
def validKeys : List String := ["canAccess", "canEdit", "isOptional", "isCompleted"]

/-- Model of `Object.keys(data).every((key) => validKeys.includes(key))`. -/
def patchKeysValid (p : StepPatch) : Bool :=
  p.all (fun kv => validKeys.contains kv.1)

/-- Model of `JSON.stringify` of a boolean or string value (quote/backslash escaping of
exotic strings is not modelled; no repository input contains them). -/
def jsValStringify : JsVal → String
  | JsVal.bool true => "true"
  | JsVal.bool false => "false"
  | JsVal.str s => "\"" ++ s ++ "\""

/-- Model of `JSON.stringify(data)` for a `Partial<StepState>` patch. -/
def jsonStringifyPatch (p : StepPatch) : String :=
  "\x7b" ++ String.intercalate ","
    (p.map (fun kv => "\"" ++ kv.1 ++ "\":" ++ jsValStringify kv.2)) ++ "\x7d"

/-- The `updateSteps` error message for a patch with an unknown key. -/
def invalidDataMsg (p : StepPatch) : String :=
  "Invalid data provided: " ++ jsonStringifyPatch p
    ++ ". Valid keys are: canAccess, canEdit, isOptional, isCompleted"

/-- The `updateSteps` error message for an out-of-range index. -/
def invalidIndexMsg (i : Int) : String :=
  "Invalid stepIndex: " ++ toString i ++ "."

/-- Whether one update entry fails `updateSteps` validation against a step
list of length `len`. -/
def updateInvalid (len : Nat) (u : UpdateStepInput) : Bool :=
  ! patchKeysValid u.data || decide (u.stepIndex < 0) || decide ((len : Int) ≤ u.stepIndex)

/-- The error message `updateSteps` raises for a failing update entry (the
key check runs before the index check). -/
def invalidMessage (u : UpdateStepInput) : String :=
  if ! patchKeysValid u.data then invalidDataMsg u.data else invalidIndexMsg u.stepIndex

/-- The validation loop of `updateSteps`: `updates.forEach` throwing at the
first entry with an unknown key or an out-of-range `stepIndex`. -/
def validateUpdates (len : Nat) : List UpdateStepInput → Option String
  | [] => none
  | u :: rest =>
    if updateInvalid len u then some (invalidMessage u) else validateUpdates len rest

/-- Model of `updateSteps` from `useStepsActions.tsx` (state part): validates every
update first, then copies the array and applies
`updatedSteps[i] = {...updatedSteps[i], ...data}` — here the merge base is the
accumulated copy, unlike the navigation `updateStepsStatus`. -/
def updateStepsResult {T : Type} (st : StepperState T)
    (updates : List UpdateStepInput) : Except String (StepperState T) :=
  match validateUpdates st.steps.length updates with
  | some e => Except.error e
  | none =>
    let updatedSteps := updates.foldl
      (fun acc u => jsWriteStep acc u.stepIndex (applyPatch (jsGetStep acc u.stepIndex) u.data))
      st.steps
    Except.ok { st with steps := updatedSteps }

/-- World-level `updateSteps`: on a validation error the exception propagates
(second component) and nothing is touched; otherwise the new state is
committed and persisted (when `saveLocalStorage` is on). -/
def worldUpdateSteps {T : Type} (cfg : StepperConfig) (w : World T)
    (updates : List UpdateStepInput) : World T × Option String :=
  match updateStepsResult w.state updates with
  | Except.error e => (w, some e)
  | Except.ok s' =>
    ({ w with
        state := s'
        storage := if cfg.saveLocalStorage then some s' else w.storage }, none)

/-- World-level `cleanLocalStorage`: removes the blob, in-memory state intact. -/
def worldCleanLocalStorage {T : Type} (w : World T) : World T :=
  { w with storage := none }

/-- The public operations a consumer can perform on the stepper. -/
inductive StepperOp (T : Type) where
  | setStepsInfo (steps : List StepConfig) : StepperOp T
  | updateSteps (updates : List UpdateStepInput) : StepperOp T
  | updateGeneralState (dataMerge : T → T) : StepperOp T
  | cleanLocalStorage : StepperOp T
  | onNext (args : NavArgs T) : StepperOp T
  | onPrev (args : NavArgs T) : StepperOp T
  | goToStep (t : Int) (args : NavArgs T) : StepperOp T

/-- Apply one public operation to the world (rejections are logged by the
world functions themselves; the propagated error, if any, is dropped here
because an uncaught rejection leaves the world exactly as returned). -/
def applyOp {T : Type} (cfg : StepperConfig) (w : World T) : StepperOp T → World T
  | StepperOp.setStepsInfo steps => worldSetStepsInfo w steps
  | StepperOp.updateSteps updates => (worldUpdateSteps cfg w updates).1
  | StepperOp.updateGeneralState f => worldUpdateGeneralState cfg w f
  | StepperOp.cleanLocalStorage => worldCleanLocalStorage w
  | StepperOp.onNext args => (worldOnNext cfg w args).1
  | StepperOp.onPrev args => (worldOnPrev cfg w args).1
  | StepperOp.goToStep t args => (worldGoToStep cfg w t args).1

/-- Apply a sequence of public operations. -/
def applyOps {T : Type} (cfg : StepperConfig) : World T → List (StepperOp T) → World T
  | w, [] => w
  | w, op :: rest => applyOps cfg (applyOp cfg w op) rest

/-- The specified invariant relating the step list to the step counter. -/
def stepsInvariant {T : Type} (s : StepperState T) : Prop :=
  s.steps.length = s.generalInfo.totalSteps

instance {T : Type} (s : StepperState T) : Decidable (stepsInvariant s) := by
  unfold stepsInvariant; infer_instance

/-- A navigation argument bundle whose status updates all address existing
steps of the given world. -/
def navArgsGood {T : Type} (w : World T) (args : NavArgs T) : Bool :=
  (args.updateStepsStatus.getD []).all
    (fun u => decide (u.stepIndex < (w.state.steps.length : Int)))

/-- Side condition on one operation: navigation entry points must not carry a
status update addressing a position past the end of the step list. -/
def opGood {T : Type} (w : World T) : StepperOp T → Bool
  | StepperOp.onNext args => navArgsGood w args
  | StepperOp.onPrev args => navArgsGood w args
  | StepperOp.goToStep _ args => navArgsGood w args
  | _ => true

/-- The side condition along a whole trace. -/
def goodTrace {T : Type} (cfg : StepperConfig) : World T → List (StepperOp T) → Bool
  | _, [] => true
  | w, op :: rest => opGood w op && goodTrace cfg (applyOp cfg w op) rest

/-- JSON values, the image of `JSON.stringify`/`JSON.parse`.  The pair
stringify/parse is a bijection between JSON values and their serialized texts,
so the string store is modelled at JSON-value granularity: what the
round-trip claim leaves to verify is that a stepper state survives the trip
to its JSON image and back without loss. -/
inductive Json where
  | null : Json
  | bool (b : Bool) : Json
  | num (q : ℚ) : Json
  | str (s : String) : Json
  | arr (elems : List Json) : Json
  | obj (fields : List (String × Json)) : Json

/-- Property lookup on a parsed JSON object. -/
def jGet (fields : List (String × Json)) (k : String) : Option Json :=
  (fields.find? (fun kv => kv.1 == k)).map (fun kv => kv.2)

/-- Expect a JSON string. -/
def asStr : Option Json → Option String
  | some (Json.str s) => some s
  | _ => none

/-- Expect a JSON boolean. -/
def asBool : Option Json → Option Bool
  | some (Json.bool b) => some b
  | _ => none

/-- Expect a JSON number. -/
def asNum : Option Json → Option ℚ
  | some (Json.num q) => some q
  | _ => none

/-- Read a JSON number back as the natural it serialized. -/
def asCount (j : Option Json) : Option Nat :=
  match asNum j with
  | some q => if q.den = 1 ∧ 0 ≤ q.num then some q.num.toNat else none
  | none => none

/-- JSON image of one step record. -/
def encodeStep (s : StepState) : Json :=
  Json.obj [("name", Json.str s.name), ("canAccess", Json.bool s.canAccess),
    ("canEdit", Json.bool s.canEdit), ("isOptional", Json.bool s.isOptional),
    ("isCompleted", Json.bool s.isCompleted)]

/-- Interpretation of a parsed JSON value as a step record. -/
def decodeStep : Json → Option StepState
  | Json.obj f =>
    match asStr (jGet f "name"), asBool (jGet f "canAccess"), asBool (jGet f "canEdit"),
        asBool (jGet f "isOptional"), asBool (jGet f "isCompleted") with
    | some n, some a, some e, some o, some c => some ⟨n, a, e, o, c⟩
    | _, _, _, _, _ => none
  | _ => none

/-- Interpretation of a list of parsed JSON values as step records. -/
def decodeSteps : List Json → Option (List StepState)
  | [] => some []
  | j :: rest =>
    match decodeStep j, decodeSteps rest with
    | some s, some ss => some (s :: ss)
    | _, _ => none

/-- JSON image of a full stepper state whose user payload is itself a JSON
value (`JSON.stringify` keeps exactly the JSON shadow of the payload). -/
def encodeState (s : StepperState Json) : Json :=
  Json.obj [
    ("generalInfo", Json.obj [
      ("totalSteps", Json.num (s.generalInfo.totalSteps : ℚ)),
      ("currentProgress", Json.num s.generalInfo.currentProgress),
      ("completedProgress", Json.num s.generalInfo.completedProgress),
      ("canAccessProgress", Json.num s.generalInfo.canAccessProgress)]),
    ("steps", Json.arr (s.steps.map encodeStep)),
    ("generalState", s.generalState),
    ("isLoadedFromLocalStorage", Json.bool s.isLoadedFromLocalStorage)]

/-- Interpretation of a parsed JSON value as a full stepper state. -/
def decodeState (j : Json) : Option (StepperState Json) :=
  match j with
  | Json.obj f =>
    match jGet f "generalInfo" with
    | some (Json.obj gi) =>
      match asCount (jGet gi "totalSteps"), asNum (jGet gi "currentProgress"),
          asNum (jGet gi "completedProgress"), asNum (jGet gi "canAccessProgress") with
      | some ts, some cp, some comp, some cap =>
        match jGet f "steps" with
        | some (Json.arr js) =>
          match decodeSteps js, jGet f "generalState", asBool (jGet f "isLoadedFromLocalStorage") with
          | some ss, some gs, some ld => some ⟨⟨ts, cp, comp, cap⟩, ss, gs, ld⟩
          | _, _, _ => none
        | _ => none
      | _, _, _, _ => none
    | _ => none
  | _ => none

/-- The browser key-value store, at parsed-JSON granularity. -/
abbrev Store := List (String × Json)

/-- Model of `localStorage.setItem` (most recent write shadows older ones). -/
def storeSet (store : Store) (k : String) (v : Json) : Store := (k, v) :: store

/-- Model of `localStorage.getItem` followed by `JSON.parse`. -/
def storeGet (store : Store) (k : String) : Option Json :=
  (store.find? (fun kv => kv.1 == k)).map (fun kv => kv.2)

/-- Model of `saveToLocalStorage` from `useStepperSync.ts`: `setItem` inside try/catch;
`ok` is whether the write succeeds in the environment, a failed write leaves
the store untouched and logs a warning. -/
def syncSaveToLocalStorage (ok : Bool) (store : Store) (key : String) (data : Json) :
    Store × List LogEntry :=
  if ok then (storeSet store key data, [])
  else (store, [⟨LogLevel.warn, "Failed to save to localStorage:"⟩])

/-- Model of `loadFromLocalStorage` from `useStepperSync.ts`:
`item ? JSON.parse(item) : null` (a stored serialization always parses back to
the stored JSON value, so the catch branch is unreachable in this model). -/
def syncLoadFromLocalStorage (store : Store) (key : String) : Json :=
  match storeGet store key with
  | some j => j
  | none => Json.null

/-- Model of `clearFromLocalStorage` from `useStepperSync.ts`. -/
def syncClearFromLocalStorage (store : Store) (key : String) : Store :=
  store.filter (fun kv => ! (kv.1 == key))

lemma mapWithIndex_length {α β : Type} (f : Nat → α → β) :
    ∀ (k : Nat) (l : List α), (mapWithIndex f k l).length = l.length := by
  intro k l
  induction l generalizing k with
  | nil => rfl
  | cons x xs ih => simp [mapWithIndex, ih]

lemma mapWithIndex_get? {α β : Type} (f : Nat → α → β) :
    ∀ (k : Nat) (l : List α) (i : Nat),
      (mapWithIndex f k l).get? i = (l.get? i).map (f (k + i)) := by
  intro k l
  induction l generalizing k with
  | nil => intro i; rfl
  | cons x xs ih =>
    intro i
    cases i with
    | zero => rfl
    | succ j =>
      have harith : k + (j + 1) = (k + 1) + j := by omega
      simp only [mapWithIndex, List.get?_cons_succ, harith]
      exact ih (k + 1) j

lemma updateStepStates_length (cfg : StepperConfig) (steps : List StepState)
    (c : Nat) (t : Option Nat) (fwd : Bool) :
    (updateStepStates cfg steps c t fwd).length = steps.length := by
  simp [updateStepStates, mapWithIndex_length]

lemma updateStepStates_get? (cfg : StepperConfig) (steps : List StepState)
    (c : Nat) (t : Option Nat) (fwd : Bool) (i : Nat) :
    (updateStepStates cfg steps c t fwd).get? i
      = (steps.get? i).map (navTransformStep cfg c t fwd i) := by
  simpa using mapWithIndex_get? (navTransformStep cfg c t fwd) 0 steps i

lemma jsWriteStep_length_of_lt (l : List StepState) (i : Int) (x : StepState)
    (h : i < (l.length : Int)) : (jsWriteStep l i x).length = l.length := by
  unfold jsWriteStep
  by_cases h0 : 0 ≤ i
  · have hlt : i.toNat < l.length := by omega
    simp [h0, hlt]
  · simp [h0]

lemma updateStepsStatus_write_length {T : Type} (st : StepperState T)
    (updates : List UpdateStepInput)
    (h : ∀ u ∈ updates, u.stepIndex < (st.steps.length : Int)) :
    (updateStepsStatus st updates).length = st.steps.length := by
  unfold updateStepsStatus
  have main : ∀ (us : List UpdateStepInput) (acc : List StepState),
      acc.length = st.steps.length →
      (∀ u ∈ us, u.stepIndex < (st.steps.length : Int)) →
      (us.foldl (fun acc u => jsWriteStep acc u.stepIndex
        (applyPatch (jsGetStep st.steps u.stepIndex) u.data)) acc).length
        = st.steps.length := by
    intro us
    induction us with
    | nil => intro acc hacc _; simpa using hacc
    | cons u rest ih =>
      intro acc hacc hus
      have hu : u.stepIndex < (acc.length : Int) := by
        rw [hacc]; exact hus u (by simp)
      have hlen := jsWriteStep_length_of_lt acc u.stepIndex
        (applyPatch (jsGetStep st.steps u.stepIndex) u.data) hu
      exact ih _ (hlen.trans hacc) (fun v hv => hus v (by simp [hv]))
  exact main updates st.steps rfl h

lemma validateUpdates_eq_none {len : Nat} {updates : List UpdateStepInput}
    (h : validateUpdates len updates = none) :
    ∀ u ∈ updates, updateInvalid len u = false := by
  induction updates with
  | nil => intro u hu; cases hu
  | cons v rest ih =>
    intro u hu
    by_cases hv : updateInvalid len v
    · simp [validateUpdates, hv] at h
    · rcases List.mem_cons.mp hu with hu | hu
      · subst hu; simpa using hv
      · exact ih (by simpa [validateUpdates, hv] using h) u hu

lemma validateUpdates_of_invalid {len : Nat} {updates : List UpdateStepInput}
    (h : ∃ u ∈ updates, updateInvalid len u = true) :
    ∃ u ∈ updates, updateInvalid len u = true
      ∧ validateUpdates len updates = some (invalidMessage u) := by
  induction updates with
  | nil => rcases h with ⟨u, hu, _⟩; cases hu
  | cons v rest ih =>
    by_cases hv : updateInvalid len v
    · exact ⟨v, by simp, hv, by simp [validateUpdates, hv]⟩
    · rcases h with ⟨u, hu, hbad⟩
      rcases List.mem_cons.mp hu with hu | hu
      · subst hu; exact absurd hbad hv
      · rcases ih ⟨u, hu, hbad⟩ with ⟨u', hu', hbad', hmsg⟩
        exact ⟨u', by simp [hu'], hbad', by simpa [validateUpdates, hv] using hmsg⟩

lemma jsOr1_eq_max (n : Nat) : jsOr1 n = max n 1 := by
  unfold jsOr1; split <;> omega

lemma decodeStep_encodeStep (s : StepState) : decodeStep (encodeStep s) = some s := by
  cases s; rfl

lemma decodeSteps_map_encodeStep (l : List StepState) :
    decodeSteps (l.map encodeStep) = some l := by
  induction l with
  | nil => rfl
  | cons s rest ih => simp [decodeSteps, decodeStep_encodeStep, ih]

lemma asCount_natCast (n : Nat) :
    asCount (some (Json.num (n : ℚ))) = some n := by
  simp [asCount, asNum, Rat.den_natCast]

lemma decodeState_encodeState (s : StepperState Json) :
    decodeState (encodeState s) = some s := by
  cases s with
  | mk gi steps gs ld =>
    cases gi
    simp [decodeState, encodeState, jGet, asNum, asBool, asCount_natCast,
      decodeSteps_map_encodeStep]

/-- The three-step fixture used by the repository's own tests (`Step 3` not
accessible). -/
def sampleSteps : List StepState :=
  [⟨"Step 1", true, true, false, false⟩,
   ⟨"Step 2", true, true, false, false⟩,
   ⟨"Step 3", false, false, false, false⟩]

/-- A consistent three-step stepper state. -/
def sampleState : StepperState Unit :=
  ⟨⟨3, 0, 0, 0⟩, sampleSteps, (), false⟩

/-- World at the first step of the fixture. -/
def sampleWorld : World Unit := ⟨sampleState, 0, false, none, []⟩

/-- World at the last step of the fixture. -/
def lastWorld : World Unit := ⟨sampleState, 2, false, none, []⟩

/-- Configuration with every optional knob left out. -/
def emptyConfig : StepperConfig := {}

/-- Navigation call with no optional arguments. -/
def noArgs : NavArgs Unit := {}

/-- Navigation call whose completion callback always rejects. -/
def rejectArgs : NavArgs Unit :=
  { onCompleteStep := some (fun _ => Except.error "boom") }

/-- C7: `goToStep(t)` with `t < 0` or `t >= totalSteps` rejects with the
error naming the nonexistent step and leaves the whole world — stepper state,
active index, persisted blob, log — unchanged. -/
theorem claim_C7_thm {T : Type} (cfg : StepperConfig) (w : World T) (t : Int)
    (args : NavArgs T)
    (h : t < 0 ∨ (w.state.generalInfo.totalSteps : Int) ≤ t) :
    worldGoToStep cfg w t args
      = (w, some ("The step " ++ toString t ++ " does not exist.")) := by
  unfold worldGoToStep
  rw [if_pos h]

/-- Witness for C7 at `t = 5` on the three-step fixture. -/
theorem claim_C7_witness :
    worldGoToStep emptyConfig sampleWorld 5 noArgs
      = (sampleWorld, some ("The step " ++ toString (5 : Int) ++ " does not exist.")) :=
  claim_C7_thm emptyConfig sampleWorld 5 noArgs (by decide)

/-- C10: an in-range backward jump (`0 ≤ t < totalSteps`, `t < c`) always
proceeds to `executeStepNavigation`, whatever the target's `canAccess` flag
and whatever `validations.goToStep.canAccess` says; and when the completion
callback resolves (or is absent) the jump commits the new index. -/
theorem claim_C10_thm {T : Type} (cfg : StepperConfig) (w : World T) (t : Int)
    (args : NavArgs T) (h0 : 0 ≤ t)
    (hN : t < (w.state.generalInfo.totalSteps : Int))
    (hc : t < (w.current : Int)) :
    worldGoToStep cfg w t args = (executeStepNavigation cfg w t.toNat args, none)
      ∧ (cbOutcome args (navNewState cfg w.state w.current t.toNat args) = none →
          (worldGoToStep cfg w t args).1.current = t.toNat) := by
  have hrange : ¬(t < 0 ∨ (w.state.generalInfo.totalSteps : Int) ≤ t) := by omega
  have hne : ¬(t = (w.current : Int)) := by omega
  have hblocked : goToStepBlocked cfg w t = false := by
    unfold goToStepBlocked
    rw [decide_eq_false (by omega : ¬((w.current : Int) < t))]
    simp
  have hgo : worldGoToStep cfg w t args = (executeStepNavigation cfg w t.toNat args, none) := by
    unfold worldGoToStep
    rw [if_neg hrange, if_neg hne, if_neg (by simp [hblocked])]
  refine ⟨hgo, fun hcb => ?_⟩
  rw [hgo]
  simp only [executeStepNavigation, hcb]

/-- Witness for C10: backward jump from index 2 to the inaccessible step 0,
with the `goToStep` accessibility validation explicitly enabled. -/
theorem claim_C10_witness :
    worldGoToStep
        { validations := some ⟨some ⟨some true⟩⟩ }
        ⟨⟨⟨3, 0, 0, 0⟩, [⟨"Step 1", false, false, false, false⟩,
            ⟨"Step 2", false, false, false, false⟩,
            ⟨"Step 3", false, false, false, false⟩], (), false⟩, 2, false, none, []⟩
        0 noArgs
      = (executeStepNavigation
          { validations := some ⟨some ⟨some true⟩⟩ }
          ⟨⟨⟨3, 0, 0, 0⟩, [⟨"Step 1", false, false, false, false⟩,
              ⟨"Step 2", false, false, false, false⟩,
              ⟨"Step 3", false, false, false, false⟩], (), false⟩, 2, false, none, []⟩
          (Int.toNat 0) noArgs, none) :=
  (claim_C10_thm _ _ 0 noArgs (by decide) (by decide) (by decide)).1

/-- C9: saving a stepper state under the fixed key (when the storage write
succeeds) and loading it back yields exactly the serialized image, and that
image decodes to a state deep-equal to the original: the round trip loses
nothing. -/
theorem claim_C9_thm (ok : Bool) (store : Store) (s : StepperState Json)
    (h : ok = true) :
    syncLoadFromLocalStorage
        (syncSaveToLocalStorage ok store "stepperState" (encodeState s)).1 "stepperState"
      = encodeState s
    ∧ decodeState (encodeState s) = some s := by
  subst h
  refine ⟨?_, decodeState_encodeState s⟩
  have hget : storeGet (storeSet store "stepperState" (encodeState s)) "stepperState"
      = some (encodeState s) := by
    unfold storeGet storeSet
    rw [List.find?_cons_of_pos _ (by simp)]
    rfl
  unfold syncLoadFromLocalStorage syncSaveToLocalStorage
  simp [hget]

/-- Witness for C9 on a concrete state with a JSON payload. -/
theorem claim_C9_witness :
    syncLoadFromLocalStorage
        (syncSaveToLocalStorage true []
          "stepperState"
          (encodeState ⟨⟨2, 1 / 2, 0, 1⟩, [⟨"A", true, false, false, false⟩],
            Json.str "payload", false⟩)).1 "stepperState"
      = encodeState ⟨⟨2, 1 / 2, 0, 1⟩, [⟨"A", true, false, false, false⟩],
          Json.str "payload", false⟩
    ∧ decodeState (encodeState ⟨⟨2, 1 / 2, 0, 1⟩, [⟨"A", true, false, false, false⟩],
          Json.str "payload", false⟩)
      = some ⟨⟨2, 1 / 2, 0, 1⟩, [⟨"A", true, false, false, false⟩],
          Json.str "payload", false⟩ :=
  claim_C9_thm true [] _ rfl

/-- C3: every accepted navigation — `onNext` past the guard, `onPrev` past the
guard, `goToStep` past range/no-op/accessibility guards — whose completion
callback resolves (or is absent) commits a state whose `currentProgress`
equals `(t+1)/max(N,1)` for the target index `t` and the step count `N`. -/
theorem claim_C3_thm {T : Type} (cfg : StepperConfig) (w : World T) :
    (∀ args : NavArgs T, w.current + 1 < w.state.generalInfo.totalSteps →
      cbOutcome args (navNewState cfg w.state w.current (w.current + 1) args) = none →
      (worldOnNext cfg w args).1.state.generalInfo.currentProgress
        = (((w.current + 1 : Nat) : ℚ) + 1)
            / ((max w.state.generalInfo.totalSteps 1 : Nat) : ℚ))
    ∧ (∀ args : NavArgs T, 0 < w.current →
      cbOutcome args (navNewState cfg w.state w.current (w.current - 1) args) = none →
      (worldOnPrev cfg w args).1.state.generalInfo.currentProgress
        = (((w.current - 1 : Nat) : ℚ) + 1)
            / ((max w.state.generalInfo.totalSteps 1 : Nat) : ℚ))
    ∧ (∀ (t : Int) (args : NavArgs T), 0 ≤ t →
      t < (w.state.generalInfo.totalSteps : Int) → t ≠ (w.current : Int) →
      goToStepBlocked cfg w t = false →
      cbOutcome args (navNewState cfg w.state w.current t.toNat args) = none →
      (worldGoToStep cfg w t args).1.state.generalInfo.currentProgress
        = ((t.toNat : ℚ) + 1)
            / ((max w.state.generalInfo.totalSteps 1 : Nat) : ℚ)) := by
  refine ⟨fun args h hcb => ?_, fun args h hcb => ?_, fun t args h0 hN hne hnb hcb => ?_⟩
  · unfold worldOnNext
    rw [if_neg (by omega)]
    simp only [executeStepNavigation, hcb]
    simp [navNewState, jsOr1_eq_max]
  · unfold worldOnPrev
    rw [if_neg (by omega)]
    simp only [executeStepNavigation, hcb]
    simp [navNewState, jsOr1_eq_max]
  · unfold worldGoToStep
    rw [if_neg (by omega), if_neg hne, if_neg (by simp [hnb])]
    simp only [executeStepNavigation, hcb]
    simp [navNewState, jsOr1_eq_max]

/-- Witness for C3: `onNext` from index 0 of the three-step fixture lands on
progress `2; 3`. -/
theorem claim_C3_witness :
    (worldOnNext emptyConfig sampleWorld noArgs).1.state.generalInfo.currentProgress
      = (((sampleWorld.current + 1 : Nat) : ℚ) + 1)
          / ((max sampleWorld.state.generalInfo.totalSteps 1 : Nat) : ℚ) :=
  (claim_C3_thm emptyConfig sampleWorld).1 noArgs (by decide) rfl

/-- C1 (amended): when a navigation accepted past the guards has its
completion callback reject, the rejection is caught (nothing propagates) and
logged, and the busy flag ends false — but the computed transition is NOT
committed: the stepper state and the active index remain the pre-call ones.
Only the persisted blob (when persistence is enabled) already holds the new
state, because the write happens before the callback is awaited. -/
theorem claim_C1_thm {T : Type} (cfg : StepperConfig) (w : World T) :
    (∀ (args : NavArgs T) (e : String),
      w.current + 1 < w.state.generalInfo.totalSteps →
      cbOutcome args (navNewState cfg w.state w.current (w.current + 1) args) = some e →
      worldOnNext cfg w args
        = ({ w with storage := if cfg.saveLocalStorage then some (navNewState cfg w.state w.current (w.current + 1) args) else w.storage, loading := false, log := w.log ++ [⟨LogLevel.error, "Error in step navigation: " ++ e⟩] }, none))
    ∧ (∀ (args : NavArgs T) (e : String), 0 < w.current →
      cbOutcome args (navNewState cfg w.state w.current (w.current - 1) args) = some e →
      worldOnPrev cfg w args
        = ({ w with storage := if cfg.saveLocalStorage then some (navNewState cfg w.state w.current (w.current - 1) args) else w.storage, loading := false, log := w.log ++ [⟨LogLevel.error, "Error in step navigation: " ++ e⟩] }, none))
    ∧ (∀ (t : Int) (args : NavArgs T) (e : String), 0 ≤ t →
      t < (w.state.generalInfo.totalSteps : Int) → t ≠ (w.current : Int) →
      goToStepBlocked cfg w t = false →
      cbOutcome args (navNewState cfg w.state w.current t.toNat args) = some e →
      worldGoToStep cfg w t args
        = ({ w with storage := if cfg.saveLocalStorage then some (navNewState cfg w.state w.current t.toNat args) else w.storage, loading := false, log := w.log ++ [⟨LogLevel.error, "Error in step navigation: " ++ e⟩] }, none)) := by
  refine ⟨fun args e h hcb => ?_, fun args e h hcb => ?_,
    fun t args e h0 hN hne hnb hcb => ?_⟩
  · unfold worldOnNext
    rw [if_neg (by omega)]
    simp only [executeStepNavigation, hcb]
  · unfold worldOnPrev
    rw [if_neg (by omega)]
    simp only [executeStepNavigation, hcb]
  · unfold worldGoToStep
    rw [if_neg (by omega), if_neg hne, if_neg (by simp [hnb])]
    simp only [executeStepNavigation, hcb]

/-- Witness for C1 (amended): `onNext` from the fixture with a rejecting
callback. -/
theorem claim_C1_witness :
    worldOnNext emptyConfig sampleWorld rejectArgs
      = ({ sampleWorld with storage := if emptyConfig.saveLocalStorage then some (navNewState emptyConfig sampleWorld.state sampleWorld.current (sampleWorld.current + 1) rejectArgs) else sampleWorld.storage, loading := false, log := sampleWorld.log ++ [⟨LogLevel.error, "Error in step navigation: " ++ "boom"⟩] }, none) :=
  (claim_C1_thm emptyConfig sampleWorld).1 rejectArgs "boom" (by decide) rfl

/-- Counterexample to C1 as stated: an accepted `onNext` whose callback
rejects does NOT commit — the caught-and-logged rejection leaves the active
index at 0 (not the target 1) and the stepper state untouched, while the
claim asserts both are still committed. -/
theorem claim_C1_counterexample :
    (worldOnNext emptyConfig sampleWorld rejectArgs).2 = none
    ∧ (worldOnNext emptyConfig sampleWorld rejectArgs).1.loading = false
    ∧ (worldOnNext emptyConfig sampleWorld rejectArgs).1.log
        = [⟨LogLevel.error, "Error in step navigation: boom"⟩]
    ∧ (worldOnNext emptyConfig sampleWorld rejectArgs).1.state = sampleState
    ∧ (worldOnNext emptyConfig sampleWorld rejectArgs).1.current = 0
    ∧ (worldOnNext emptyConfig sampleWorld rejectArgs).1.current ≠ 1 := by
  decide

/-- C8 (amended): with the current index on the last valid step
(`c = totalSteps - 1`), `onNext` never changes the stepper state or the
active index, clears the persisted blob when persistence is on, and logs the
already-on-last-step warning — but only when the supplied callback resolves
(or is absent); a rejecting callback propagates out of `onNext` and the
warning is never logged. -/
theorem claim_C8_thm {T : Type} (cfg : StepperConfig) (w : World T)
    (args : NavArgs T)
    (h : w.state.generalInfo.totalSteps = w.current + 1) :
    (worldOnNext cfg w args).1.state = w.state
    ∧ (worldOnNext cfg w args).1.current = w.current
    ∧ (cbOutcome args w.state = none →
        worldOnNext cfg w args
          = ({ w with storage := if cfg.saveLocalStorage then none else w.storage, log := w.log ++ [⟨LogLevel.warn, "You are already on the last step."⟩] }, none))
    ∧ (∀ e, cbOutcome args w.state = some e →
        worldOnNext cfg w args
          = ({ w with storage := if cfg.saveLocalStorage then none else w.storage }, some e)) := by
  have hg : w.state.generalInfo.totalSteps ≤ w.current + 1 := by omega
  unfold worldOnNext
  rw [if_pos hg]
  rcases hcb : cbOutcome args w.state with _ | e <;>
    rcases hs : cfg.saveLocalStorage <;> simp [hcb, hs]

/-- Witness for C8 (amended) at the last step of the fixture with a rejecting
callback. -/
theorem claim_C8_witness :
    (worldOnNext emptyConfig lastWorld rejectArgs).1.state = lastWorld.state
    ∧ (worldOnNext emptyConfig lastWorld rejectArgs).1.current = lastWorld.current
    ∧ (cbOutcome rejectArgs lastWorld.state = none →
        worldOnNext emptyConfig lastWorld rejectArgs
          = ({ lastWorld with storage := if emptyConfig.saveLocalStorage then none else lastWorld.storage, log := lastWorld.log ++ [⟨LogLevel.warn, "You are already on the last step."⟩] }, none))
    ∧ (∀ e, cbOutcome rejectArgs lastWorld.state = some e →
        worldOnNext emptyConfig lastWorld rejectArgs
          = ({ lastWorld with storage := if emptyConfig.saveLocalStorage then none else lastWorld.storage }, some e)) :=
  claim_C8_thm emptyConfig lastWorld rejectArgs (by decide)

/-- Counterexample to C8 as stated: at the last step, `onNext` with a
rejecting callback does not log the warning at all — the rejection propagates
before `console.warn` runs — so "always logs the warning" fails. -/
theorem claim_C8_counterexample :
    (worldOnNext emptyConfig lastWorld rejectArgs).2 = some "boom"
    ∧ (worldOnNext emptyConfig lastWorld rejectArgs).1.log = []
    ∧ ⟨LogLevel.warn, "You are already on the last step."⟩
        ∉ (worldOnNext emptyConfig lastWorld rejectArgs).1.log := by
  decide

/-- C4 (amended): on a forward transition the per-field overrides on the
current step `c` and the target step `t` fall back to the step's existing
value when unconfigured, with TWO exceptions: `next.currentStep.isCompleted`
defaults to `true`, and `next.nextStep.canAccess` also defaults to `true`. -/
theorem claim_C4_thm (cfg : StepperConfig) (steps : List StepState) (c t : Nat)
    (sc st : StepState) (hlt : c < t)
    (hsc : steps.get? c = some sc) (hst : steps.get? t = some st) :
    (((cfgNextCurrent cfg).bind StepOverrides.canAccess = none →
      ((updateStepStates cfg steps c (some t) true).get? c).map StepState.canAccess
        = some sc.canAccess)
    ∧ ((cfgNextCurrent cfg).bind StepOverrides.isCompleted = none →
      ((updateStepStates cfg steps c (some t) true).get? c).map StepState.isCompleted
        = some true)
    ∧ ((cfgNextCurrent cfg).bind StepOverrides.isOptional = none →
      ((updateStepStates cfg steps c (some t) true).get? c).map StepState.isOptional
        = some sc.isOptional)
    ∧ ((cfgNextCurrent cfg).bind StepOverrides.canEdit = none →
      ((updateStepStates cfg steps c (some t) true).get? c).map StepState.canEdit
        = some sc.canEdit))
    ∧ (((cfgNextNext cfg).bind StepOverrides.canAccess = none →
      ((updateStepStates cfg steps c (some t) true).get? t).map StepState.canAccess
        = some true)
    ∧ ((cfgNextNext cfg).bind StepOverrides.isCompleted = none →
      ((updateStepStates cfg steps c (some t) true).get? t).map StepState.isCompleted
        = some st.isCompleted)
    ∧ ((cfgNextNext cfg).bind StepOverrides.isOptional = none →
      ((updateStepStates cfg steps c (some t) true).get? t).map StepState.isOptional
        = some st.isOptional)
    ∧ ((cfgNextNext cfg).bind StepOverrides.canEdit = none →
      ((updateStepStates cfg steps c (some t) true).get? t).map StepState.canEdit
        = some st.canEdit)) := by
  have hcur : (updateStepStates cfg steps c (some t) true).get? c
      = some (navTransformStep cfg c (some t) true c sc) := by
    rw [updateStepStates_get?, hsc]; rfl
  have htgt : (updateStepStates cfg steps c (some t) true).get? t
      = some (navTransformStep cfg c (some t) true t st) := by
    rw [updateStepStates_get?, hst]; rfl
  have hcurbranch : navTransformStep cfg c (some t) true c sc
      = { sc with
          canAccess := ((cfgNextCurrent cfg).bind StepOverrides.canAccess).getD sc.canAccess
          isCompleted := ((cfgNextCurrent cfg).bind StepOverrides.isCompleted).getD true
          isOptional := ((cfgNextCurrent cfg).bind StepOverrides.isOptional).getD sc.isOptional
          canEdit := ((cfgNextCurrent cfg).bind StepOverrides.canEdit).getD sc.canEdit } := by
    unfold navTransformStep
    rw [if_pos ⟨rfl, rfl⟩]
  have htgtbranch : navTransformStep cfg c (some t) true t st
      = { st with
          canAccess := ((cfgNextNext cfg).bind StepOverrides.canAccess).getD true
          isCompleted := ((cfgNextNext cfg).bind StepOverrides.isCompleted).getD st.isCompleted
          isOptional := ((cfgNextNext cfg).bind StepOverrides.isOptional).getD st.isOptional
          canEdit := ((cfgNextNext cfg).bind StepOverrides.canEdit).getD st.canEdit } := by
    unfold navTransformStep
    rw [if_neg (by simp; omega), if_neg (by simp), if_pos ⟨rfl, rfl⟩]
  refine ⟨⟨fun hn => ?_, fun hn => ?_, fun hn => ?_, fun hn => ?_⟩,
    ⟨fun hn => ?_, fun hn => ?_, fun hn => ?_, fun hn => ?_⟩⟩ <;>
    first
    | (rw [hcur, hcurbranch]; simp [hn])
    | (rw [htgt, htgtbranch]; simp [hn])

/-- Witness for C4 (amended) on the three-step fixture, forward from 0 to 1. -/
theorem claim_C4_witness :
    (((cfgNextCurrent emptyConfig).bind StepOverrides.canAccess = none →
      ((updateStepStates emptyConfig sampleSteps 0 (some 1) true).get? 0).map StepState.canAccess
        = some (StepState.canAccess ⟨"Step 1", true, true, false, false⟩))
    ∧ ((cfgNextCurrent emptyConfig).bind StepOverrides.isCompleted = none →
      ((updateStepStates emptyConfig sampleSteps 0 (some 1) true).get? 0).map StepState.isCompleted
        = some true)
    ∧ ((cfgNextCurrent emptyConfig).bind StepOverrides.isOptional = none →
      ((updateStepStates emptyConfig sampleSteps 0 (some 1) true).get? 0).map StepState.isOptional
        = some (StepState.isOptional ⟨"Step 1", true, true, false, false⟩))
    ∧ ((cfgNextCurrent emptyConfig).bind StepOverrides.canEdit = none →
      ((updateStepStates emptyConfig sampleSteps 0 (some 1) true).get? 0).map StepState.canEdit
        = some (StepState.canEdit ⟨"Step 1", true, true, false, false⟩)))
    ∧ (((cfgNextNext emptyConfig).bind StepOverrides.canAccess = none →
      ((updateStepStates emptyConfig sampleSteps 0 (some 1) true).get? 1).map StepState.canAccess
        = some true)
    ∧ ((cfgNextNext emptyConfig).bind StepOverrides.isCompleted = none →
      ((updateStepStates emptyConfig sampleSteps 0 (some 1) true).get? 1).map StepState.isCompleted
        = some (StepState.isCompleted ⟨"Step 2", true, true, false, false⟩))
    ∧ ((cfgNextNext emptyConfig).bind StepOverrides.isOptional = none →
      ((updateStepStates emptyConfig sampleSteps 0 (some 1) true).get? 1).map StepState.isOptional
        = some (StepState.isOptional ⟨"Step 2", true, true, false, false⟩))
    ∧ ((cfgNextNext emptyConfig).bind StepOverrides.canEdit = none →
      ((updateStepStates emptyConfig sampleSteps 0 (some 1) true).get? 1).map StepState.canEdit
        = some (StepState.canEdit ⟨"Step 2", true, true, false, false⟩))) :=
  claim_C4_thm emptyConfig sampleSteps 0 1 _ _ (by decide) rfl rfl

/-- Counterexample to C4 as stated: with NO override configured at all, a
forward move from 0 to 2 flips the target step's `canAccess` from `false` to
`true` — the claim allows only `next.currentStep.isCompleted` to deviate from
"unchanged". -/
theorem claim_C4_counterexample :
    cfgNextNext emptyConfig = none
    ∧ (sampleSteps.get? 2).map StepState.canAccess = some false
    ∧ ((updateStepStates emptyConfig sampleSteps 0 (some 2) true).get? 2).map StepState.canAccess
        = some true := by
  decide

/-- C5 (amended): `setStepsInfo` on a list of length `N` sets
`totalSteps = N`, resets `currentProgress` and `completedProgress` to 0, sets
`canAccessProgress` to `1/N` (0 when `N = 0`) — not 0 — and gives every step
the defaults `canAccess = (index == 0)`, `canEdit = false`,
`isOptional = false`, `isCompleted = false` unless the corresponding flag was
explicitly supplied. -/
theorem claim_C5_thm {T : Type} (prevState : StepperState T)
    (cfgSteps : List StepConfig) :
    (setStepsInfoState prevState cfgSteps).generalInfo.totalSteps = cfgSteps.length
    ∧ (setStepsInfoState prevState cfgSteps).generalInfo.currentProgress = 0
    ∧ (setStepsInfoState prevState cfgSteps).generalInfo.completedProgress = 0
    ∧ (setStepsInfoState prevState cfgSteps).generalInfo.canAccessProgress
        = (if cfgSteps.length = 0 then 0 else 1 / (cfgSteps.length : ℚ))
    ∧ (∀ (i : Nat) (ci : StepConfig), cfgSteps.get? i = some ci →
        (setStepsInfoState prevState cfgSteps).steps.get? i
          = some ⟨ci.name, ci.canAccess.getD (decide (i = 0)), ci.canEdit.getD false,
              ci.isOptional.getD false, ci.isCompleted.getD false⟩) := by
  refine ⟨rfl, rfl, rfl, ?_, fun i ci hci => ?_⟩
  · show (if cfgSteps.length > 0 then 1 / (cfgSteps.length : ℚ) else 0) = _
    rcases Nat.eq_zero_or_pos cfgSteps.length with h | h
    · simp [h]
    · have hne : cfgSteps.length ≠ 0 := by omega
      simp [h, hne]
  · show (mapWithIndex _ 0 cfgSteps).get? i = _
    rw [mapWithIndex_get?, hci]
    simp

/-- Witness for C5 (amended) on a two-entry list with one explicit flag. -/
theorem claim_C5_witness :
    (setStepsInfoState sampleState
        [⟨"A", none, none, none, none⟩, ⟨"B", none, some true, none, none⟩]).generalInfo.totalSteps
      = 2
    ∧ (setStepsInfoState sampleState
        [⟨"A", none, none, none, none⟩, ⟨"B", none, some true, none, none⟩]).generalInfo.currentProgress
      = 0
    ∧ (setStepsInfoState sampleState
        [⟨"A", none, none, none, none⟩, ⟨"B", none, some true, none, none⟩]).generalInfo.completedProgress
      = 0
    ∧ (setStepsInfoState sampleState
        [⟨"A", none, none, none, none⟩, ⟨"B", none, some true, none, none⟩]).generalInfo.canAccessProgress
      = (if ([⟨"A", none, none, none, none⟩, ⟨"B", none, some true, none, none⟩] : List StepConfig).length = 0 then 0
          else 1 / (([⟨"A", none, none, none, none⟩, ⟨"B", none, some true, none, none⟩] : List StepConfig).length : ℚ))
    ∧ (∀ (i : Nat) (ci : StepConfig),
        ([⟨"A", none, none, none, none⟩, ⟨"B", none, some true, none, none⟩] : List StepConfig).get? i = some ci →
        (setStepsInfoState sampleState
            [⟨"A", none, none, none, none⟩, ⟨"B", none, some true, none, none⟩]).steps.get? i
          = some ⟨ci.name, ci.canAccess.getD (decide (i = 0)), ci.canEdit.getD false,
              ci.isOptional.getD false, ci.isCompleted.getD false⟩) :=
  claim_C5_thm sampleState _

/-- Counterexample to C5 as stated: after `setStepsInfo` with a single step,
`canAccessProgress` is `1`, not `0` — the three counters are not all reset to
zero. -/
theorem claim_C5_counterexample :
    (setStepsInfoState sampleState [⟨"A", none, none, none, none⟩]).generalInfo.canAccessProgress
      = 1
    ∧ (1 : ℚ) ≠ 0 := by
  constructor
  · show (if (1 : Nat) > 0 then 1 / ((1 : Nat) : ℚ) else 0) = 1
    norm_num
  · norm_num

/-- C6: `updateSteps` with any update whose data has an unknown key or whose
`stepIndex` lies outside `[0, steps.length)` throws the validation error built
from that (first such) update and leaves the entire world — in particular the
whole step list — unchanged. -/
theorem claim_C6_thm {T : Type} (cfg : StepperConfig) (w : World T)
    (updates : List UpdateStepInput)
    (h : ∃ u ∈ updates, updateInvalid w.state.steps.length u = true) :
    ∃ u ∈ updates, updateInvalid w.state.steps.length u = true
      ∧ worldUpdateSteps cfg w updates = (w, some (invalidMessage u)) := by
  rcases validateUpdates_of_invalid h with ⟨u, hu, hbad, hmsg⟩
  exact ⟨u, hu, hbad, by simp [worldUpdateSteps, updateStepsResult, hmsg]⟩

/-- A batch with an unknown `data` key, for the C6 witness. -/
def badUpdates : List UpdateStepInput := [⟨0, [("foo", JsVal.bool true)]⟩]

/-- Witness for C6: an unknown key `"foo"` fails the batch and leaves the
fixture world untouched. -/
theorem claim_C6_witness :
    ∃ u ∈ badUpdates, updateInvalid sampleWorld.state.steps.length u = true
      ∧ worldUpdateSteps emptyConfig sampleWorld badUpdates
          = (sampleWorld, some (invalidMessage u)) :=
  claim_C6_thm emptyConfig sampleWorld badUpdates (by decide)

lemma foldl_jsWriteStep_length (g : List StepState → UpdateStepInput → StepState)
    (n : Nat) :
    ∀ (us : List UpdateStepInput) (acc : List StepState), acc.length = n →
      (∀ u ∈ us, u.stepIndex < (n : Int)) →
      (us.foldl (fun acc u => jsWriteStep acc u.stepIndex (g acc u)) acc).length = n := by
  intro us
  induction us with
  | nil => intro acc hacc _; simpa using hacc
  | cons u rest ih =>
    intro acc hacc hus
    have hu : u.stepIndex < (acc.length : Int) := by
      rw [hacc]; exact hus u (by simp)
    have hlen := jsWriteStep_length_of_lt acc u.stepIndex (g acc u) hu
    exact ih _ (hlen.trans hacc) (fun v hv => hus v (by simp [hv]))

lemma updateInvalid_false_lt {len : Nat} {u : UpdateStepInput}
    (h : updateInvalid len u = false) : u.stepIndex < (len : Int) := by
  simp [updateInvalid] at h
  omega

lemma updateStepsResult_ok_inv {T : Type} {st : StepperState T}
    {us : List UpdateStepInput} {s' : StepperState T}
    (h : updateStepsResult st us = Except.ok s') (hinv : stepsInvariant st) :
    stepsInvariant s' := by
  unfold updateStepsResult at h
  rcases hval : validateUpdates st.steps.length us with _ | e
  · rw [hval] at h
    simp only at h
    have hlen : (us.foldl (fun acc u => jsWriteStep acc u.stepIndex
        (applyPatch (jsGetStep acc u.stepIndex) u.data)) st.steps).length
        = st.steps.length := by
      refine foldl_jsWriteStep_length _ _ us st.steps rfl (fun u hu => ?_)
      exact updateInvalid_false_lt (validateUpdates_eq_none hval u hu)
    cases h
    unfold stepsInvariant
    simpa [hlen] using hinv
  · rw [hval] at h
    simp at h

lemma navNewState_inv {T : Type} (cfg : StepperConfig) (st : StepperState T)
    (c t : Nat) (args : NavArgs T)
    (hg : (args.updateStepsStatus.getD []).all
      (fun u => decide (u.stepIndex < (st.steps.length : Int))) = true)
    (hinv : stepsInvariant st) :
    stepsInvariant (navNewState cfg st c t args) := by
  have hall : ∀ u ∈ args.updateStepsStatus.getD [], u.stepIndex < (st.steps.length : Int) :=
    fun u hu => of_decide_eq_true (List.all_eq_true.mp hg u hu)
  unfold stepsInvariant
  simp only [navNewState]
  rw [updateStepStates_length, updateStepsStatus_write_length st _ hall]
  exact hinv

lemma executeStepNavigation_inv {T : Type} (cfg : StepperConfig) (w : World T)
    (t : Nat) (args : NavArgs T) (hg : navArgsGood w args = true)
    (hinv : stepsInvariant w.state) :
    stepsInvariant (executeStepNavigation cfg w t args).state := by
  have hnew := navNewState_inv cfg w.state w.current t args hg hinv
  unfold executeStepNavigation
  rcases hcb : cbOutcome args (navNewState cfg w.state w.current t args) with _ | e <;>
    simp [hcb, hnew, hinv]

lemma applyOp_inv {T : Type} (cfg : StepperConfig) (w : World T)
    (op : StepperOp T) (hg : opGood w op = true) (hinv : stepsInvariant w.state) :
    stepsInvariant (applyOp cfg w op).state := by
  cases op with
  | setStepsInfo steps =>
    simp [applyOp, worldSetStepsInfo, setStepsInfoState, stepsInvariant, mapWithIndex_length]
  | updateSteps us =>
    simp only [applyOp, worldUpdateSteps]
    rcases hres : updateStepsResult w.state us with e | s'
    · simpa [hres] using hinv
    · simpa [hres] using updateStepsResult_ok_inv hres hinv
  | updateGeneralState f =>
    simpa [applyOp, worldUpdateGeneralState, stepsInvariant] using hinv
  | cleanLocalStorage =>
    simpa [applyOp, worldCleanLocalStorage] using hinv
  | onNext args =>
    simp only [applyOp, worldOnNext]
    by_cases hng : w.state.generalInfo.totalSteps ≤ w.current + 1
    · rw [if_pos hng]
      rcases hcb : cbOutcome args w.state with _ | e <;>
        rcases hs : cfg.saveLocalStorage <;> simp [hcb, hs, hinv]
    · rw [if_neg hng]
      exact executeStepNavigation_inv cfg w (w.current + 1) args hg hinv
  | onPrev args =>
    simp only [applyOp, worldOnPrev]
    by_cases hz : w.current = 0
    · rw [if_pos hz]; simpa using hinv
    · rw [if_neg hz]
      exact executeStepNavigation_inv cfg w (w.current - 1) args hg hinv
  | goToStep t args =>
    simp only [applyOp, worldGoToStep]
    by_cases hr : t < 0 ∨ (w.state.generalInfo.totalSteps : Int) ≤ t
    · rw [if_pos hr]; simpa using hinv
    · rw [if_neg hr]
      by_cases he : t = (w.current : Int)
      · rw [if_pos he]; simpa using hinv
      · rw [if_neg he]
        by_cases hb : goToStepBlocked cfg w t
        · rw [if_pos hb]; simpa using hinv
        · rw [if_neg hb]
          exact executeStepNavigation_inv cfg w t.toNat args hg hinv

/-- C2 (amended): from any state satisfying `steps.length == totalSteps`,
every sequence of public operations preserves the invariant — PROVIDED every
navigation call's `updateStepsStatus` entries address indices below the
current step-list length.  (As stated, the claim fails: an out-of-range
status update extends the array; see the counterexample.) -/
theorem claim_C2_thm {T : Type} (cfg : StepperConfig) (w : World T)
    (ops : List (StepperOp T)) (hinv : stepsInvariant w.state)
    (hg : goodTrace cfg w ops = true) :
    stepsInvariant (applyOps cfg w ops).state := by
  induction ops generalizing w with
  | nil => simpa [applyOps] using hinv
  | cons op rest ih =>
    simp only [goodTrace, Bool.and_eq_true] at hg
    exact ih (applyOp cfg w op) (applyOp_inv cfg w op hg.1 hinv) hg.2

/-- The empty default world a provider starts from. -/
def initWorld : World Unit := ⟨⟨⟨0, 0, 0, 0⟩, [], (), false⟩, 0, false, none, []⟩

/-- Three flagless step entries for `setStepsInfo`. -/
def threeCfgSteps : List StepConfig :=
  [⟨"Step 1", none, none, none, none⟩, ⟨"Step 2", none, none, none, none⟩,
   ⟨"Step 3", none, none, none, none⟩]

/-- Witness for C2 (amended): a three-operation trace with in-range status
updates keeps the invariant. -/
theorem claim_C2_witness :
    stepsInvariant (applyOps emptyConfig initWorld
      [StepperOp.setStepsInfo threeCfgSteps,
       StepperOp.onNext { updateStepsStatus := some [⟨2, [("isCompleted", JsVal.bool true)]⟩] },
       StepperOp.goToStep 0 { }]).state :=
  claim_C2_thm emptyConfig initWorld _ (by decide) (by decide)

/-- Counterexample to C2 as stated: after initialization with three steps, an
accepted `onNext` carrying a status update for index 5 extends the step array
to length 6 while `totalSteps` stays 3 — the invariant breaks after a public
operation. -/
theorem claim_C2_counterexample :
    ¬ stepsInvariant (applyOps emptyConfig initWorld
      [StepperOp.setStepsInfo threeCfgSteps,
       StepperOp.onNext { updateStepsStatus := some [⟨5, []⟩] }]).state
    ∧ (applyOps emptyConfig initWorld
      [StepperOp.setStepsInfo threeCfgSteps,
       StepperOp.onNext { updateStepsStatus := some [⟨5, []⟩] }]).state.steps.length = 6
    ∧ (applyOps emptyConfig initWorld
      [StepperOp.setStepsInfo threeCfgSteps,
       StepperOp.onNext { updateStepsStatus := some [⟨5, []⟩] }]).state.generalInfo.totalSteps = 3 := by
  refine ⟨?_, ?_, ?_⟩ <;> decide
